import Mathlib

/-
Shallow embedding of the prediction-and-verification core of `src/main.py`
(a daily market range-prediction bot).

Modelling conventions:
* Calendar dates (ISO strings in the code, compared only with `==`/`!=` and
  dictionary lookup there) are modelled as naturals ordered chronologically.
* Python floats are modelled as rationals; the code performs no rounding in
  the core arithmetic.
* The pandas DataFrame ledger is a `List Record`; a row's `NaN`/null cells
  (`actual_high`, `actual_low`, `result`) are `Option` values.
* Network calls (`yf.Ticker(...).history`, option-chain fetch) are inputs of
  the functions: a fetch that raises is `none`, a successful fetch is `some`
  of its data.
-/

namespace MarketBot

/-- Outcome stored in the `result` column: `"WIN"` or `"LOSS"`. -/
inductive Result where
  | WIN : Result
  | LOSS : Result
deriving DecidableEq

/-- One row of `market_record.csv` (columns defined in `main`, line 123). -/
structure Record where
  date : Nat
  symbol : String
  name : String
  price : ℚ
  iv : ℚ
  low_pred : ℚ
  high_pred : ℚ
  actual_high : Option ℚ
  actual_low : Option ℚ
  result : Option Result
deriving DecidableEq

/-- One entry of the `ASSETS` configuration list: display name, the symbol
used for prediction and ledger rows, and the ticker used to fetch
verification history. -/
structure Asset where
  name : String
  symbol : String
  verify_ticker : String
deriving DecidableEq

/-- The `ASSETS` configuration list of `src/main.py` lines 17-24. -/
def ASSETS : List Asset :=
  [ ⟨"🏆 黄金", "GLD", "GLD"⟩,
    ⟨"🛢️ 原油", "USO", "USO"⟩,
    ⟨"🔥 天然气", "UNG", "UNG"⟩,
    ⟨"📈 标普500", "SPY", "SPY"⟩,
    ⟨"💻 纳指100", "QQQ", "QQQ"⟩,
    ⟨"🏭 道琼斯", "DIA", "DIA"⟩ ]

/-- A fetched daily-range history window: for each date, the realized
`(High, Low)` pair, or `none` when the date is not in the window
(`hist.index` membership in the code). -/
def History : Type := Nat → Option (ℚ × ℚ)

/-- The pending filter of `verify_history` line 67:
`(df['result'].isna()) & (df['date'] != today_str)`. -/
def pending_mask (today : Nat) (r : Record) : Bool :=
  r.result.isNone && (r.date != today)

/-- The resolution write of `verify_history` lines 102-106: store the realized
high/low and judge `WIN` when the realized range stayed inside the predicted
range, else `LOSS`. -/
def judgedRecord (r : Record) (h l : ℚ) : Record :=
  { r with
    actual_high := some h
    actual_low := some l
    result := some (if h ≤ r.high_pred ∧ l ≥ r.low_pred then Result.WIN else Result.LOSS) }

/-- Resolution attempt for one pending row (`verify_history` lines 91-107):
if the row's date is in the fetched window, judge it; otherwise leave it. -/
def tryResolve (hist : History) (r : Record) : Record :=
  match hist r.date with
  | some (h, l) => judgedRecord r h l
  | none => r

/-- The per-asset history fetch of `verify_history` lines 84-88: the fetch is
attempted only when the asset has pending rows, and a raised exception is
`none`. The `Bool` in each pair is the row's pending bit, computed once at
the start of `verify_history` (the mask is not recomputed inside the loop). -/
def assetHist (fetch : String → Option History) (a : Asset)
    (tagged : List (Bool × Record)) : Option History :=
  if (tagged.filter (fun p => p.1 && (p.2.symbol == a.symbol))).isEmpty then none
  else fetch a.verify_ticker

/-- One iteration of the per-asset loop of `verify_history` lines 76-109:
resolve every pending row of this asset whose date is in the fetched window,
and count the resolutions. A failed fetch leaves every row untouched. -/
def stepAsset (fetch : String → Option History) (a : Asset)
    (tagged : List (Bool × Record)) : List (Bool × Record) × Nat :=
  match assetHist fetch a tagged with
  | none => (tagged, 0)
  | some hist =>
      (tagged.map (fun p =>
         if p.1 && (p.2.symbol == a.symbol) then (p.1, tryResolve hist p.2) else p),
       (tagged.filter (fun p =>
         p.1 && (p.2.symbol == a.symbol) && (hist p.2.date).isSome)).length)

/-- The full per-asset loop of `verify_history`, threading the ledger and the
update count through the configured assets in order. -/
def runAssets (fetch : String → Option History) :
    List Asset → List (Bool × Record) × Nat → List (Bool × Record) × Nat
  | [], acc => acc
  | a :: rest, (tagged, n) =>
      let res := stepAsset fetch a tagged
      runAssets fetch rest (res.1, n + res.2)

/-- `verify_history` (`src/main.py` lines 61-111): compute the pending mask
once, return early when nothing is pending, otherwise run the per-asset loop
and return the updated ledger together with the number of rows resolved. -/
def verify_history (today : Nat) (fetch : String → Option History)
    (assets : List Asset) (df : List Record) : List Record × Nat :=
  let tagged := df.map (fun r => (pending_mask today r, r))
  if (tagged.filter (fun p => p.1)).isEmpty then (df, 0)
  else
    let res := runAssets fetch assets (tagged, 0)
    (res.1.map Prod.snd, res.2)

/-- One row of the nearest-expiry call chain: strike and implied volatility. -/
structure OptionRow where
  strike : ℚ
  impliedVolatility : ℚ
deriving DecidableEq

/-- The at-the-money selection of `get_prediction` line 43:
`(np.abs(calls['strike'] - price)).argmin()`, i.e. the first row whose strike
has minimal absolute distance to the price. -/
def selectATM (price : ℚ) : List OptionRow → Option OptionRow
  | [] => none
  | c :: cs =>
      match selectATM price cs with
      | none => some c
      | some best =>
          if |c.strike - price| ≤ |best.strike - price| then some c else some best

/-- The successful output of `get_prediction` (`src/main.py` lines 49-56). -/
structure PredData where
  name : String
  symbol : String
  price : ℚ
  iv : ℚ
  low : ℚ
  high : ℚ
deriving DecidableEq

/-- `get_prediction` (`src/main.py` lines 28-59). The market-data input is
`none` when the quote fetch raised or the ticker listed no option expiries;
otherwise it is the last price and the nearest-expiry call chain. The rule-of-16
expected move is `price * (iv / 16)`. -/
def get_prediction (asset : Asset) (quote : Option (ℚ × List OptionRow)) :
    Option PredData :=
  match quote with
  | none => none
  | some (price, calls) =>
      match selectATM price calls with
      | none => none
      | some c =>
          let iv := c.impliedVolatility
          let move := price * (iv / 16)
          some { name := asset.name, symbol := asset.symbol, price := price,
                 iv := iv, low := price - move, high := price + move }

/-- The duplicate-row locator of `main` line 164:
`(df['date'] == today_str) & (df['symbol'] == data['symbol'])`. -/
def upsertKey (today : Nat) (sym : String) (r : Record) : Bool :=
  (r.date == today) && (r.symbol == sym)

/-- Update the first row satisfying `p` (the code writes at
`existing_idx[0]`, `main` line 170), leaving every other row unchanged. -/
def updateFirst (p : Record → Bool) (f : Record → Record) :
    List Record → List Record
  | [] => []
  | r :: rs => if p r then f r :: rs else r :: updateFirst p f rs

/-- The in-place overwrite of `main` lines 171-174: only the price, iv and
predicted bounds of an existing row are written; every other cell is kept. -/
def overwriteFields (d : PredData) (r : Record) : Record :=
  { r with price := d.price, iv := d.iv, low_pred := d.low, high_pred := d.high }

/-- The fresh row built in `main` lines 177-186, with null actual/result cells. -/
def freshRecord (today : Nat) (d : PredData) : Record :=
  { date := today, symbol := d.symbol, name := d.name, price := d.price,
    iv := d.iv, low_pred := d.low, high_pred := d.high,
    actual_high := none, actual_low := none, result := none }

/-- The per-asset ledger write of `main` lines 162-188: if a row for
`(today, symbol)` exists, overwrite its price/iv/low_pred/high_pred in place;
otherwise append a fresh row with null actual/result cells. -/
def upsert (today : Nat) (d : PredData) (df : List Record) : List Record :=
  if df.any (upsertKey today d.symbol) then
    updateFirst (upsertKey today d.symbol) (overwriteFields d) df
  else
    df ++ [freshRecord today d]

/-- One line of the report built in `main` lines 156-192: either the
per-asset failure notice or the formatted prediction line. -/
inductive ReportLine where
  | failure (name : String) : ReportLine
  | prediction (name : String) (low high iv : ℚ) : ReportLine
deriving DecidableEq

/-- The prediction loop of `main` lines 156-192: for each configured asset,
either record a failure notice (prediction unavailable) or upsert the
prediction into the ledger and record its report line. `preds` abstracts
`get_prediction`, whose network inputs are external. -/
def processAssets (today : Nat) (preds : Asset → Option PredData) :
    List Asset → List Record → List Record × List ReportLine
  | [], df => (df, [])
  | a :: rest, df =>
      match preds a with
      | none =>
          let res := processAssets today preds rest df
          (res.1, ReportLine.failure a.name :: res.2)
      | some d =>
          let res := processAssets today preds rest (upsert today d df)
          (res.1, ReportLine.prediction a.name d.low d.high d.iv :: res.2)

/-- `completed = df[df['result'].notna()]` (`main` line 141). -/
def completed (df : List Record) : List Record :=
  df.filter (fun r => r.result.isSome)

/-- `wins = completed[completed['result'] == 'WIN'].shape[0]` (`main` line 142). -/
def wins (df : List Record) : Nat :=
  ((completed df).filter (fun r => r.result == some Result.WIN)).length

/-- `total = completed.shape[0]` (`main` line 143). -/
def total_resolved (df : List Record) : Nat :=
  (completed df).length

/-- `win_rate = (wins / total) if total > 0 else 0.0` (`main` line 144). -/
def win_rate (df : List Record) : ℚ :=
  if 0 < total_resolved df then (wins df : ℚ) / (total_resolved df : ℚ) else 0

/-- Outcome of attempting to read the persisted ledger store at run start
(`main` lines 125-135): the file may be missing, `pd.read_csv` may raise, or
it may parse into rows with or without a `symbol` column. -/
inductive StoreState where
  | missing : StoreState
  | unreadable : StoreState
  | parsed (hasSymbolCol : Bool) (records : List Record) : StoreState
deriving DecidableEq

/-- The ledger-loading logic of `main` lines 125-135: a missing file, a read
error, or an old-format file without the `symbol` column all fall back to an
empty ledger; only a well-formed parse keeps its rows. -/
def load_ledger : StoreState → List Record
  | StoreState.missing => []
  | StoreState.unreadable => []
  | StoreState.parsed false _ => []
  | StoreState.parsed true rs => rs

/-! Helper lemmas about the verifier loop. -/

theorem judgedRecord_judgedRecord (r : Record) (h l h2 l2 : ℚ) :
    judgedRecord (judgedRecord r h l) h2 l2 = judgedRecord r h2 l2 := rfl

theorem assetHist_eq_some (fetch : String → Option History) (a : Asset)
    (tagged : List (Bool × Record)) (hist : History)
    (hah : assetHist fetch a tagged = some hist) :
    fetch a.verify_ticker = some hist := by
  unfold assetHist at hah
  by_cases he : (tagged.filter (fun p => p.1 && (p.2.symbol == a.symbol))).isEmpty
  · simp [he] at hah
  · simpa [he] using hah

theorem stepAsset_getElem_unchanged (fetch : String → Option History) (a : Asset)
    (tagged : List (Bool × Record)) (i : Nat) (b : Bool) (r : Record)
    (hi : tagged[i]? = some (b, r))
    (hcond : b = true → r.symbol = a.symbol →
      ∀ hist, fetch a.verify_ticker = some hist → hist r.date = none) :
    (stepAsset fetch a tagged).1[i]? = some (b, r) := by
  cases hah : assetHist fetch a tagged with
  | none => simp only [stepAsset, hah]; exact hi
  | some hist =>
      have hfetch := assetHist_eq_some fetch a tagged hist hah
      simp only [stepAsset, hah, List.getElem?_map, hi, Option.map_some']
      by_cases hb : b = true
      · by_cases hs : r.symbol = a.symbol
        · have hn : hist r.date = none := hcond hb hs hist hfetch
          simp [hb, hs, tryResolve, hn]
        · have hs' : (r.symbol == a.symbol) = false := by
            simp [hs]
          simp [hs']
      · have hb' : b = false := by
          cases b
          · rfl
          · exact absurd rfl hb
        simp [hb']

theorem stepAsset_getElem_char (fetch : String → Option History) (a : Asset)
    (tagged : List (Bool × Record)) (i : Nat) (b : Bool) (r : Record)
    (hi : tagged[i]? = some (b, r)) :
    ∃ r2, (stepAsset fetch a tagged).1[i]? = some (b, r2) ∧
      (r2 = r ∨ ∃ h l, r2 = judgedRecord r h l) := by
  cases hah : assetHist fetch a tagged with
  | none =>
      refine ⟨r, ?_, Or.inl rfl⟩
      simp only [stepAsset, hah]; exact hi
  | some hist =>
      simp only [stepAsset, hah, List.getElem?_map, hi, Option.map_some']
      by_cases hc : (b && (r.symbol == a.symbol)) = true
      · cases hd : hist r.date with
        | none =>
            refine ⟨r, ?_, Or.inl rfl⟩
            simp [hc, tryResolve, hd]
        | some hl =>
            refine ⟨judgedRecord r hl.1 hl.2, ?_, Or.inr ⟨hl.1, hl.2, rfl⟩⟩
            simp [hc, tryResolve, hd]
      · have hc' : (b && (r.symbol == a.symbol)) = false := by
          cases hcc : (b && (r.symbol == a.symbol))
          · rfl
          · exact absurd hcc hc
        exact ⟨r, by simp [hc'], Or.inl rfl⟩

theorem runAssets_getElem_unchanged (fetch : String → Option History)
    (assets : List Asset) (tagged : List (Bool × Record)) (n i : Nat) (b : Bool) (r : Record)
    (hi : tagged[i]? = some (b, r))
    (hcond : ∀ a ∈ assets, b = true → r.symbol = a.symbol →
      ∀ hist, fetch a.verify_ticker = some hist → hist r.date = none) :
    (runAssets fetch assets (tagged, n)).1[i]? = some (b, r) := by
  induction assets generalizing tagged n with
  | nil => simpa [runAssets] using hi
  | cons a rest ih =>
      simp only [runAssets]
      exact ih _ _
        (stepAsset_getElem_unchanged fetch a tagged i b r hi (hcond a (by simp)))
        (fun a2 ha2 => hcond a2 (by simp [ha2]))

theorem runAssets_getElem_char (fetch : String → Option History) (assets : List Asset) :
    ∀ (tagged : List (Bool × Record)) (n i : Nat) (b : Bool) (r : Record),
      tagged[i]? = some (b, r) →
      ∃ r2, (runAssets fetch assets (tagged, n)).1[i]? = some (b, r2) ∧
        (r2 = r ∨ ∃ h l, r2 = judgedRecord r h l) := by
  induction assets with
  | nil =>
      intro tagged n i b r hi
      exact ⟨r, by simpa [runAssets] using hi, Or.inl rfl⟩
  | cons a rest ih =>
      intro tagged n i b r hi
      obtain ⟨r1, h1, hd1⟩ := stepAsset_getElem_char fetch a tagged i b r hi
      obtain ⟨r2, h2, hd2⟩ := ih _ (n + (stepAsset fetch a tagged).2) i b r1 h1
      refine ⟨r2, by simpa [runAssets] using h2, ?_⟩
      rcases hd2 with rfl | ⟨h2q, l2q, rfl⟩
      · exact hd1
      · rcases hd1 with rfl | ⟨hh, ll, rfl⟩
        · exact Or.inr ⟨h2q, l2q, rfl⟩
        · exact Or.inr ⟨h2q, l2q, judgedRecord_judgedRecord r hh ll h2q l2q⟩

theorem runAssets_append (fetch : String → Option History) (xs ys : List Asset)
    (acc : List (Bool × Record) × Nat) :
    runAssets fetch (xs ++ ys) acc = runAssets fetch ys (runAssets fetch xs acc) := by
  induction xs generalizing acc with
  | nil => simp [runAssets]
  | cons a rest ih =>
      obtain ⟨tagged, n⟩ := acc
      simp only [List.cons_append, runAssets]
      exact ih _

theorem stepAsset_getElem_resolved (fetch : String → Option History) (a : Asset)
    (tagged : List (Bool × Record)) (i : Nat) (r : Record) (hist : History) (hh ll : ℚ)
    (hi : tagged[i]? = some (true, r))
    (hsym : r.symbol = a.symbol)
    (hf : fetch a.verify_ticker = some hist)
    (hd : hist r.date = some (hh, ll)) :
    (stepAsset fetch a tagged).1[i]? = some (true, judgedRecord r hh ll) := by
  have hmem : ((true, r) : Bool × Record) ∈ tagged := List.getElem?_mem hi
  have hfil : ((true, r) : Bool × Record) ∈
      tagged.filter (fun p => p.1 && (p.2.symbol == a.symbol)) :=
    List.mem_filter.mpr ⟨hmem, by simp [hsym]⟩
  have hnil : tagged.filter (fun p => p.1 && (p.2.symbol == a.symbol)) ≠ [] :=
    List.ne_nil_of_mem hfil
  have hne : (tagged.filter (fun p => p.1 && (p.2.symbol == a.symbol))).isEmpty = false := by
    simpa [List.isEmpty_iff] using hnil
  have hah : assetHist fetch a tagged = some hist := by
    simp [assetHist, hne, hf]
  simp only [stepAsset, hah, List.getElem?_map, hi, Option.map_some']
  simp [hsym, tryResolve, hd]

theorem verify_history_getElem_unchanged (today : Nat) (fetch : String → Option History)
    (assets : List Asset) (df : List Record) (i : Nat) (r : Record)
    (hdf : df[i]? = some r)
    (hcond : ∀ a ∈ assets, pending_mask today r = true → r.symbol = a.symbol →
      ∀ hist, fetch a.verify_ticker = some hist → hist r.date = none) :
    (verify_history today fetch assets df).1[i]? = some r := by
  have htag : (df.map (fun r => (pending_mask today r, r)))[i]? =
      some (pending_mask today r, r) := by
    rw [List.getElem?_map, hdf]; rfl
  cases he : ((df.map (fun r => (pending_mask today r, r))).filter (fun p => p.1)).isEmpty with
  | true => simp [verify_history, he, hdf]
  | false =>
      have hrun := runAssets_getElem_unchanged fetch assets _ 0 i (pending_mask today r) r
        htag hcond
      simp only [verify_history, he, Bool.false_eq_true, if_false]
      rw [List.getElem?_map, hrun]
      rfl

theorem verify_history_getElem_char (today : Nat) (fetch : String → Option History)
    (assets : List Asset) (df : List Record) (i : Nat) (r : Record)
    (hdf : df[i]? = some r) :
    ∃ r2, (verify_history today fetch assets df).1[i]? = some r2 ∧
      (r2 = r ∨ ∃ h l, r2 = judgedRecord r h l) := by
  have htag : (df.map (fun r => (pending_mask today r, r)))[i]? =
      some (pending_mask today r, r) := by
    rw [List.getElem?_map, hdf]; rfl
  cases he : ((df.map (fun r => (pending_mask today r, r))).filter (fun p => p.1)).isEmpty with
  | true => exact ⟨r, by simp [verify_history, he, hdf], Or.inl rfl⟩
  | false =>
      obtain ⟨r2, h2, hd2⟩ :=
        runAssets_getElem_char fetch assets _ 0 i (pending_mask today r) r htag
      refine ⟨r2, ?_, hd2⟩
      simp only [verify_history, he, Bool.false_eq_true, if_false]
      rw [List.getElem?_map, h2]
      rfl

theorem judgedRecord_symbol (r : Record) (h l : ℚ) :
    (judgedRecord r h l).symbol = r.symbol := rfl

theorem judgedRecord_date (r : Record) (h l : ℚ) :
    (judgedRecord r h l).date = r.date := rfl

theorem judgedRecord_result_isSome (r : Record) (h l : ℚ) :
    (judgedRecord r h l).result.isSome = true := rfl

theorem verify_history_resolves (today : Nat) (fetch : String → Option History)
    (assets : List Asset) (df : List Record) (i : Nat) (r : Record) (b : Asset)
    (hist : History) (hh ll : ℚ)
    (hdf : df[i]? = some r) (hp : pending_mask today r = true)
    (hb : b ∈ assets) (hsym : r.symbol = b.symbol)
    (hf : fetch b.verify_ticker = some hist)
    (hd : hist r.date = some (hh, ll)) :
    ∃ r2, (verify_history today fetch assets df).1[i]? = some r2 ∧
      r2.result.isSome = true := by
  have htag : (df.map (fun r => (pending_mask today r, r)))[i]? = some (true, r) := by
    rw [List.getElem?_map, hdf, Option.map_some']
    rw [hp]
  cases he : ((df.map (fun r => (pending_mask today r, r))).filter (fun p => p.1)).isEmpty with
  | true =>
      exfalso
      have hmem : ((true, r) : Bool × Record) ∈ df.map (fun r => (pending_mask today r, r)) :=
        List.getElem?_mem htag
      have hfil : ((true, r) : Bool × Record) ∈
          (df.map (fun r => (pending_mask today r, r))).filter (fun p => p.1) :=
        List.mem_filter.mpr ⟨hmem, rfl⟩
      rw [List.isEmpty_iff.mp he] at hfil
      exact List.not_mem_nil _ hfil
  | false =>
      obtain ⟨s, t, rfl⟩ := List.append_of_mem hb
      rcases hacc : runAssets fetch s (df.map (fun r => (pending_mask today r, r)), 0)
        with ⟨t1, n1⟩
      obtain ⟨r1, h1, hd1⟩ :=
        runAssets_getElem_char fetch s (df.map (fun r => (pending_mask today r, r))) 0 i true r htag
      rw [hacc] at h1
      have hsym1 : r1.symbol = b.symbol := by
        rcases hd1 with rfl | ⟨h3, l3, rfl⟩
        · exact hsym
        · rw [judgedRecord_symbol]; exact hsym
      have hdate1 : hist r1.date = some (hh, ll) := by
        rcases hd1 with rfl | ⟨h3, l3, rfl⟩
        · exact hd
        · rw [judgedRecord_date]; exact hd
      have hstep := stepAsset_getElem_resolved fetch b t1 i r1 hist hh ll h1 hsym1 hf hdate1
      obtain ⟨r2, h2, hd2⟩ := runAssets_getElem_char fetch t (stepAsset fetch b t1).1
        (n1 + (stepAsset fetch b t1).2) i true (judgedRecord r1 hh ll) hstep
      refine ⟨r2, ?_, ?_⟩
      · simp only [verify_history, he, Bool.false_eq_true, if_false]
        rw [runAssets_append, hacc]
        simp only [runAssets]
        rw [List.getElem?_map, h2]
        rfl
      · rcases hd2 with rfl | ⟨h4, l4, rfl⟩
        · exact judgedRecord_result_isSome r1 hh ll
        · exact judgedRecord_result_isSome _ h4 l4

/-! Helper lemmas about the ledger upsert. -/

/-- At most one ledger row carries any given (date, symbol) key. -/
def atMostOne (df : List Record) : Prop :=
  ∀ dd ss, df.countP (upsertKey dd ss) ≤ 1

theorem updateFirst_length (p : Record → Bool) (f : Record → Record) (l : List Record) :
    (updateFirst p f l).length = l.length := by
  induction l with
  | nil => rfl
  | cons r rs ih =>
      by_cases hp : p r
      · simp [updateFirst, hp]
      · simp [updateFirst, hp, ih]

theorem countP_updateFirst (p : Record → Bool) (f : Record → Record) (q : Record → Bool)
    (hq : ∀ r, q (f r) = q r) (l : List Record) :
    (updateFirst p f l).countP q = l.countP q := by
  induction l with
  | nil => rfl
  | cons r rs ih =>
      by_cases hp : p r
      · simp [updateFirst, hp, List.countP_cons, hq]
      · simp [updateFirst, hp, List.countP_cons, ih]

theorem updateFirst_spec (p : Record → Bool) (f : Record → Record) (l : List Record)
    (h : l.any p = true) :
    ∃ (i : Nat) (r : Record), l[i]? = some r ∧ p r = true ∧
      (updateFirst p f l)[i]? = some (f r) := by
  induction l with
  | nil => simp at h
  | cons r rs ih =>
      by_cases hp : p r
      · exact ⟨0, r, by simp, hp, by simp [updateFirst, hp]⟩
      · have h2 : rs.any p = true := by simpa [List.any_cons, hp] using h
        obtain ⟨i, r0, h3, h4, h5⟩ := ih h2
        refine ⟨i + 1, r0, ?_, h4, ?_⟩
        · simpa using h3
        · simp only [updateFirst, hp, if_false, Bool.false_eq_true,
            List.getElem?_cons_succ]
          exact h5

theorem overwriteFields_key (d : PredData) (dd : Nat) (ss : String) (r : Record) :
    upsertKey dd ss (overwriteFields d r) = upsertKey dd ss r := rfl

theorem freshRecord_key (today : Nat) (d : PredData) :
    upsertKey today d.symbol (freshRecord today d) = true := by
  simp [upsertKey, freshRecord]

theorem exists_key_of_countP_pos (dd : Nat) (ss : String) (l : List Record)
    (h : 0 < l.countP (upsertKey dd ss)) :
    ∃ r ∈ l, r.date = dd ∧ r.symbol = ss := by
  obtain ⟨r, hr, hk⟩ := List.countP_pos_iff.mp h
  rw [upsertKey, Bool.and_eq_true, beq_iff_eq, beq_iff_eq] at hk
  exact ⟨r, hr, hk.1, hk.2⟩

theorem atMostOne_upsert (today : Nat) (d : PredData) (df : List Record)
    (h : atMostOne df) : atMostOne (upsert today d df) := by
  intro dd ss
  by_cases ha : df.any (upsertKey today d.symbol) = true
  · rw [upsert, if_pos ha, countP_updateFirst _ _ _ (overwriteFields_key d dd ss)]
    exact h dd ss
  · rw [upsert, if_neg ha, List.countP_append]
    by_cases hk : upsertKey dd ss (freshRecord today d) = true
    · have hds : dd = today ∧ ss = d.symbol := by
        rw [upsertKey, Bool.and_eq_true, beq_iff_eq, beq_iff_eq] at hk
        exact ⟨hk.1.symm, hk.2.symm⟩
      have hz : df.countP (upsertKey dd ss) = 0 := by
        rw [hds.1, hds.2]
        rw [List.countP_eq_zero]
        intro r hr hkr
        exact ha (List.any_eq_true.mpr ⟨r, hr, hkr⟩)
      rw [hz]
      simp [List.countP_cons, hk]
    · have hk0 : upsertKey dd ss (freshRecord today d) = false := by
        cases hq : upsertKey dd ss (freshRecord today d)
        · rfl
        · exact absurd hq hk
      have h1 : List.countP (upsertKey dd ss) [freshRecord today d] = 0 := by
        simp [List.countP_cons, hk0]
      rw [h1]
      simpa using h dd ss

theorem upsert_countP_pos_self (today : Nat) (d : PredData) (df : List Record) :
    0 < (upsert today d df).countP (upsertKey today d.symbol) := by
  by_cases ha : df.any (upsertKey today d.symbol) = true
  · rw [upsert, if_pos ha,
      countP_updateFirst _ _ _ (overwriteFields_key d today d.symbol)]
    obtain ⟨r, hr, hk⟩ := List.any_eq_true.mp ha
    exact List.countP_pos_iff.mpr ⟨r, hr, hk⟩
  · rw [upsert, if_neg ha, List.countP_append]
    have h1 : 0 < List.countP (upsertKey today d.symbol) [freshRecord today d] := by
      simp [List.countP_cons, freshRecord_key]
    omega

theorem upsert_countP_mono (today : Nat) (d : PredData) (df : List Record)
    (dd : Nat) (ss : String) (h : 0 < df.countP (upsertKey dd ss)) :
    0 < (upsert today d df).countP (upsertKey dd ss) := by
  by_cases ha : df.any (upsertKey today d.symbol) = true
  · rw [upsert, if_pos ha, countP_updateFirst _ _ _ (overwriteFields_key d dd ss)]
    exact h
  · rw [upsert, if_neg ha, List.countP_append]
    omega

theorem any_of_countP_pos (p : Record → Bool) (l : List Record)
    (h : 0 < l.countP p) : l.any p = true := by
  obtain ⟨r, hr, hp⟩ := List.countP_pos_iff.mp h
  exact List.any_eq_true.mpr ⟨r, hr, hp⟩

theorem processAssets_countP_mono (today : Nat) (preds : Asset → Option PredData)
    (assets : List Asset) :
    ∀ (df0 : List Record) (dd : Nat) (ss : String),
      0 < df0.countP (upsertKey dd ss) →
      0 < (processAssets today preds assets df0).1.countP (upsertKey dd ss) := by
  induction assets with
  | nil => intro df0 dd ss h; simpa [processAssets] using h
  | cons a rest ih =>
      intro df0 dd ss h
      cases hpa : preds a with
      | none =>
          simp only [processAssets, hpa]
          exact ih df0 dd ss h
      | some d =>
          simp only [processAssets, hpa]
          exact ih (upsert today d df0) dd ss (upsert_countP_mono today d df0 dd ss h)

theorem processAssets_isolation (today : Nat) (preds : Asset → Option PredData)
    (assets : List Asset) :
    ∀ (df0 : List Record), ∀ a ∈ assets,
      (preds a = none →
        ReportLine.failure a.name ∈ (processAssets today preds assets df0).2) ∧
      (∀ d, preds a = some d →
        (∃ r3 ∈ (processAssets today preds assets df0).1,
          r3.date = today ∧ r3.symbol = d.symbol) ∧
        ReportLine.prediction a.name d.low d.high d.iv ∈
          (processAssets today preds assets df0).2) := by
  induction assets with
  | nil => intro df0 a ha; exact absurd ha (List.not_mem_nil a)
  | cons a0 rest ih =>
      intro df0 a ha
      rcases List.mem_cons.mp ha with rfl | hmem
      · constructor
        · intro hpa
          simp [processAssets, hpa]
        · intro d hpa
          constructor
          · have hpos : 0 <
                (processAssets today preds rest (upsert today d df0)).1.countP
                  (upsertKey today d.symbol) :=
              processAssets_countP_mono today preds rest (upsert today d df0) today d.symbol
                (upsert_countP_pos_self today d df0)
            obtain ⟨r3, hr3, hk⟩ := exists_key_of_countP_pos today d.symbol _ hpos
            refine ⟨r3, ?_, hk⟩
            simp only [processAssets, hpa]
            exact hr3
          · simp [processAssets, hpa]
      · cases hpa : preds a0 with
        | none =>
            have := ih df0 a hmem
            constructor
            · intro hn
              simp only [processAssets, hpa, List.mem_cons]
              exact Or.inr ((this.1) hn)
            · intro d hd
              obtain ⟨⟨r3, hr3, hk⟩, hline⟩ := (this.2) d hd
              refine ⟨⟨r3, ?_, hk⟩, ?_⟩
              · simp only [processAssets, hpa]
                exact hr3
              · simp only [processAssets, hpa, List.mem_cons]
                exact Or.inr hline
        | some d0 =>
            have := ih (upsert today d0 df0) a hmem
            constructor
            · intro hn
              simp only [processAssets, hpa, List.mem_cons]
              exact Or.inr ((this.1) hn)
            · intro d hd
              obtain ⟨⟨r3, hr3, hk⟩, hline⟩ := (this.2) d hd
              refine ⟨⟨r3, ?_, hk⟩, ?_⟩
              · simp only [processAssets, hpa]
                exact hr3
              · simp only [processAssets, hpa, List.mem_cons]
                exact Or.inr hline

/-! Concrete sample data used to exercise the theorems on closed inputs. -/

def wAsset : Asset := ⟨"Gold", "GLD", "GLD"⟩

def failAsset : Asset := ⟨"Oil", "USO", "USO"⟩

def wPending : Record :=
  ⟨5, "GLD", "Gold", 100, 1, 50, 150, none, none, none⟩

def wJudged : Record :=
  { wPending with actual_high := some 120, actual_low := some 80,
                  result := some Result.WIN }

def wResolved : Record :=
  ⟨5, "GLD", "Gold", 100, 1, 50, 150, some 120, some 80, some Result.WIN⟩

def wToday : Record :=
  ⟨10, "GLD", "Gold", 100, 1, 50, 150, none, none, none⟩

def wOther : Record :=
  ⟨5, "XYZ", "Other", 100, 1, 50, 150, none, none, none⟩

def histGLD : History :=
  fun d => if d == 5 then some (120, 80) else none

def wFetch : String → Option History :=
  fun _ => some histGLD

def emptyHist : History := fun _ => none

def fetchGap : String → Option History :=
  fun _ => some emptyHist

def fetchIso : String → Option History :=
  fun t => if t == "GLD" then some histGLD else none

def wPred : PredData := ⟨"Gold", "GLD", 100, 1, 90, 110⟩

def wPred2 : PredData := ⟨"Gold", "GLD", 101, 2, 80, 120⟩

def predsIso : Asset → Option PredData :=
  fun a => if a.symbol == "USO" then none else some wPred

def cexAsset : Asset := ⟨"Gold", "GLD", "GLD"⟩

def cexRecord : Record :=
  ⟨11, "GLD", "Gold", 100, 1, 0, 10, none, none, none⟩

def cexFetch : String → Option History :=
  fun _ => some (fun d => if d == 11 then some (5, 1) else none)

/-! The claims. -/

/-- C1. Every record judged by a verification run stores the realized high
and low, and its stored result is `WIN` iff the realized range was fully
contained in the predicted range (`actual_high ≤ high_pred` and
`actual_low ≥ low_pred`); any breach in either direction is stored as
`LOSS`. -/
theorem verify_judging_rule (today : Nat) (fetch : String → Option History)
    (assets : List Asset) (df : List Record) (i : Nat) (r r2 : Record)
    (hdf : df[i]? = some r)
    (hout : (verify_history today fetch assets df).1[i]? = some r2)
    (hch : r2 ≠ r) :
    ∃ h l, r2.actual_high = some h ∧ r2.actual_low = some l ∧
      (r2.result = some Result.WIN ↔ (h ≤ r2.high_pred ∧ l ≥ r2.low_pred)) ∧
      (r2.result = some Result.LOSS ↔ ¬(h ≤ r2.high_pred ∧ l ≥ r2.low_pred)) := by
  obtain ⟨r3, h3, hd3⟩ := verify_history_getElem_char today fetch assets df i r hdf
  rw [hout] at h3
  have heq : r3 = r2 := (Option.some.inj h3).symm
  subst heq
  rcases hd3 with rfl | ⟨h, l, rfl⟩
  · exact absurd rfl hch
  · refine ⟨h, l, rfl, rfl, ?_, ?_⟩
    · by_cases hc : h ≤ r.high_pred ∧ l ≥ r.low_pred
      · simp [judgedRecord, hc]
      · simp [judgedRecord, hc]
    · by_cases hc : h ≤ r.high_pred ∧ l ≥ r.low_pred
      · simp [judgedRecord, hc]
      · simp [judgedRecord, hc]

/-- Witness for C1 at a concrete judged record. -/
theorem verify_judging_rule_witness :
    ∃ h l, wJudged.actual_high = some h ∧ wJudged.actual_low = some l ∧
      (wJudged.result = some Result.WIN ↔ (h ≤ wJudged.high_pred ∧ l ≥ wJudged.low_pred)) ∧
      (wJudged.result = some Result.LOSS ↔ ¬(h ≤ wJudged.high_pred ∧ l ≥ wJudged.low_pred)) :=
  verify_judging_rule 10 wFetch [wAsset] [wPending] 0 wPending wJudged
    (by decide) (by decide) (by decide)

/-- C3 counterexample: a record dated strictly after the current date (11,
with today = 10) is selected and resolved by the verifier, because the code
excludes only `date == today`, not `date ≥ today`. -/
theorem future_dated_record_resolved_cex :
    10 ≤ cexRecord.date ∧ cexRecord.result = none ∧
    (verify_history 10 cexFetch [cexAsset] [cexRecord]).1 =
      [{ cexRecord with actual_high := some 5, actual_low := some 1,
                        result := some Result.WIN }] := by
  decide

/-- C3 (amended). A record dated today is never selected for verification
regardless of its result state — it is left completely unchanged by a run —
and the eligibility condition is exactly a null result together with a date
different from today (dates strictly before today are eligible, but so would
be dates strictly after today; the code does not compare order). -/
theorem today_never_selected (today : Nat) (fetch : String → Option History)
    (assets : List Asset) (df : List Record) (i : Nat) (r : Record)
    (hdf : df[i]? = some r) :
    (r.date = today → (verify_history today fetch assets df).1[i]? = some r) ∧
    (pending_mask today r = true ↔ (r.result = none ∧ r.date ≠ today)) := by
  constructor
  · intro hd
    apply verify_history_getElem_unchanged today fetch assets df i r hdf
    intro a _ hp
    exfalso
    simp [pending_mask, hd] at hp
  · simp [pending_mask, Bool.and_eq_true, Option.isNone_iff_eq_none, bne_iff_ne]

/-- Witness for C3's amended statement at a concrete today-dated record. -/
theorem today_never_selected_witness :
    (wToday.date = 10 → (verify_history 10 wFetch [wAsset] [wToday]).1[0]? = some wToday) ∧
    (pending_mask 10 wToday = true ↔ (wToday.result = none ∧ wToday.date ≠ 10)) :=
  today_never_selected 10 wFetch [wAsset] [wToday] 0 wToday (by decide)

/-- C4. A record whose result is already `WIN` or `LOSS` is never re-judged:
a verification run leaves the whole record — result, actual_high and
actual_low included — unchanged. -/
theorem resolved_never_rejudged (today : Nat) (fetch : String → Option History)
    (assets : List Asset) (df : List Record) (i : Nat) (r : Record)
    (hdf : df[i]? = some r) (hres : r.result.isSome = true) :
    (verify_history today fetch assets df).1[i]? = some r := by
  apply verify_history_getElem_unchanged today fetch assets df i r hdf
  intro a _ hp
  exfalso
  rw [pending_mask, Bool.and_eq_true] at hp
  rw [Option.isNone_iff_eq_none] at hp
  rw [hp.1] at hres
  simp at hres

/-- Witness for C4: an already-resolved record survives a run whose window
does cover its date. -/
theorem resolved_never_rejudged_witness :
    (verify_history 10 wFetch [wAsset] [wResolved]).1[0]? = some wResolved :=
  resolved_never_rejudged 10 wFetch [wAsset] [wResolved] 0 wResolved
    (by decide) (by decide)

/-- C9. A pending record whose date is absent from every daily-range window
fetched for its symbol is left completely unchanged by a verification run:
no actual values are written and its result stays unresolved. -/
theorem window_gap_unresolved (today : Nat) (fetch : String → Option History)
    (assets : List Asset) (df : List Record) (i : Nat) (r : Record)
    (hdf : df[i]? = some r) (_hpend : r.result = none)
    (hgap : ∀ a ∈ assets, a.symbol = r.symbol →
      ∀ hist, fetch a.verify_ticker = some hist → hist r.date = none) :
    (verify_history today fetch assets df).1[i]? = some r := by
  apply verify_history_getElem_unchanged today fetch assets df i r hdf
  intro a ha _ hsym hist hf
  exact hgap a ha hsym.symm hist hf

/-- Witness for C9: a pending past record under a successful fetch whose
window misses its date is unchanged. -/
theorem window_gap_unresolved_witness :
    (verify_history 10 fetchGap [wAsset] [wPending]).1[0]? = some wPending :=
  window_gap_unresolved 10 fetchGap [wAsset] [wPending] 0 wPending
    (by decide) (by decide)
    (fun _ _ _ hist hf => by rw [← Option.some.inj hf]; rfl)

/-- C10. A pending record whose symbol is not the prediction symbol of any
asset in the configured `ASSETS` list is never touched by a verification
run: it is left completely unchanged and stays unresolved indefinitely. -/
theorem unconfigured_symbol_untouched (today : Nat) (fetch : String → Option History)
    (df : List Record) (i : Nat) (r : Record)
    (hdf : df[i]? = some r)
    (hsym : ∀ a ∈ ASSETS, a.symbol ≠ r.symbol) :
    (verify_history today fetch ASSETS df).1[i]? = some r := by
  apply verify_history_getElem_unchanged today fetch ASSETS df i r hdf
  intro a ha _ hs
  exact absurd hs.symm (hsym a ha)

/-- Witness for C10 at a record whose symbol matches no configured asset. -/
theorem unconfigured_symbol_untouched_witness :
    (verify_history 10 wFetch ASSETS [wOther]).1[0]? = some wOther :=
  unconfigured_symbol_untouched 10 wFetch [wOther] 0 wOther
    (by decide) (by decide)

/-- C2. On a ledger with at most one record per (date, symbol), the daily
upsert preserves that invariant; performing it twice for the same
(date, symbol) never produces two records — the second call overwrites only
the mutable fields price/iv/low_pred/high_pred of the first call's row,
leaving actual_high, actual_low and result exactly as they were, which is
null on a freshly created record. -/
theorem upsert_idempotent (today : Nat) (d d2 : PredData) (df : List Record)
    (hone : atMostOne df) (hsym : d2.symbol = d.symbol) :
    atMostOne (upsert today d df) ∧
    (upsert today d2 (upsert today d df)).length = (upsert today d df).length ∧
    (∀ r : Record,
      (overwriteFields d2 r).price = d2.price ∧ (overwriteFields d2 r).iv = d2.iv ∧
      (overwriteFields d2 r).low_pred = d2.low ∧
      (overwriteFields d2 r).high_pred = d2.high ∧
      (overwriteFields d2 r).actual_high = r.actual_high ∧
      (overwriteFields d2 r).actual_low = r.actual_low ∧
      (overwriteFields d2 r).result = r.result ∧
      (overwriteFields d2 r).date = r.date ∧
      (overwriteFields d2 r).symbol = r.symbol ∧
      (overwriteFields d2 r).name = r.name) ∧
    ∃ (i : Nat) (r1 : Record),
      (upsert today d df)[i]? = some r1 ∧ r1.date = today ∧ r1.symbol = d.symbol ∧
      (upsert today d2 (upsert today d df))[i]? = some (overwriteFields d2 r1) ∧
      (df.any (upsertKey today d.symbol) = false →
        r1.actual_high = none ∧ r1.actual_low = none ∧ r1.result = none) := by
  have h1 : atMostOne (upsert today d df) := atMostOne_upsert today d df hone
  have hpos := upsert_countP_pos_self today d df
  have hany2 : (upsert today d df).any (upsertKey today d2.symbol) = true := by
    rw [hsym]
    exact any_of_countP_pos _ _ hpos
  have hup2 : upsert today d2 (upsert today d df) =
      updateFirst (upsertKey today d2.symbol) (overwriteFields d2) (upsert today d df) := by
    rw [upsert, if_pos hany2]
  refine ⟨h1, ?_, ?_, ?_⟩
  · rw [hup2, updateFirst_length]
  · intro r
    exact ⟨rfl, rfl, rfl, rfl, rfl, rfl, rfl, rfl, rfl, rfl⟩
  · obtain ⟨i, r1, hi, hk, hu⟩ :=
      updateFirst_spec (upsertKey today d2.symbol) (overwriteFields d2)
        (upsert today d df) hany2
    have hk2 : r1.date = today ∧ r1.symbol = d2.symbol := by
      rw [upsertKey, Bool.and_eq_true, beq_iff_eq, beq_iff_eq] at hk
      exact hk
    refine ⟨i, r1, hi, hk2.1, by rw [hk2.2, hsym], ?_, ?_⟩
    · rw [hup2]
      exact hu
    · intro hfresh
      have hdf1 : upsert today d df = df ++ [freshRecord today d] := by
        rw [upsert, if_neg (by simp [hfresh])]
      have hmem : r1 ∈ upsert today d df := List.getElem?_mem hi
      rw [hdf1] at hmem
      rcases List.mem_append.mp hmem with hin | hin
      · exfalso
        have hkr : upsertKey today d.symbol r1 = true := by
          simp [upsertKey, hk2.1, hk2.2, hsym]
        have hany : df.any (upsertKey today d.symbol) = true :=
          List.any_eq_true.mpr ⟨r1, hin, hkr⟩
        rw [hfresh] at hany
        exact Bool.false_ne_true hany
      · have hr1 : r1 = freshRecord today d := by simpa using hin
        rw [hr1]
        exact ⟨rfl, rfl, rfl⟩

/-- Witness for C2: two upserts of the same (date, symbol) on an empty ledger. -/
theorem upsert_idempotent_witness :
    atMostOne (upsert 3 wPred []) ∧
    (upsert 3 wPred2 (upsert 3 wPred [])).length = (upsert 3 wPred []).length ∧
    (∀ r : Record,
      (overwriteFields wPred2 r).price = wPred2.price ∧
      (overwriteFields wPred2 r).iv = wPred2.iv ∧
      (overwriteFields wPred2 r).low_pred = wPred2.low ∧
      (overwriteFields wPred2 r).high_pred = wPred2.high ∧
      (overwriteFields wPred2 r).actual_high = r.actual_high ∧
      (overwriteFields wPred2 r).actual_low = r.actual_low ∧
      (overwriteFields wPred2 r).result = r.result ∧
      (overwriteFields wPred2 r).date = r.date ∧
      (overwriteFields wPred2 r).symbol = r.symbol ∧
      (overwriteFields wPred2 r).name = r.name) ∧
    ∃ (i : Nat) (r1 : Record),
      (upsert 3 wPred [])[i]? = some r1 ∧ r1.date = 3 ∧ r1.symbol = wPred.symbol ∧
      (upsert 3 wPred2 (upsert 3 wPred []))[i]? = some (overwriteFields wPred2 r1) ∧
      (([] : List Record).any (upsertKey 3 wPred.symbol) = false →
        r1.actual_high = none ∧ r1.actual_low = none ∧ r1.result = none) :=
  upsert_idempotent 3 wPred wPred2 []
    (fun dd ss => by simp) (by decide)

/-- C5. For price > 0 and implied volatility ≥ 0 the estimator returns
`low = price − price·iv/16` and `high = price + price·iv/16`; in particular
price 2000 with iv 0.16 gives low 1980 and high 2020, and iv = 0 collapses
the band to `low = high = price`. -/
theorem estimator_range_formula (a : Asset) (price iv strike : ℚ)
    (_hp : 0 < price) (_hiv : 0 ≤ iv) :
    (∃ d, get_prediction a (some (price, [⟨strike, iv⟩])) = some d ∧
      d.price = price ∧ d.iv = iv ∧
      d.low = price - price * iv / 16 ∧ d.high = price + price * iv / 16 ∧
      (iv = 0 → d.low = price ∧ d.high = price)) ∧
    (∃ d, get_prediction a (some (2000, [⟨2000, 16/100⟩])) = some d ∧
      d.low = 1980 ∧ d.high = 2020) := by
  constructor
  · refine ⟨⟨a.name, a.symbol, price, iv,
        price - price * (iv / 16), price + price * (iv / 16)⟩, rfl, rfl, rfl, ?_, ?_, ?_⟩
    · show price - price * (iv / 16) = price - price * iv / 16
      ring
    · show price + price * (iv / 16) = price + price * iv / 16
      ring
    · intro h0
      constructor
      · show price - price * (iv / 16) = price
        rw [h0]
        ring
      · show price + price * (iv / 16) = price
        rw [h0]
        ring
  · refine ⟨⟨a.name, a.symbol, 2000, 16/100,
        2000 - 2000 * ((16 : ℚ)/100 / 16), 2000 + 2000 * ((16 : ℚ)/100 / 16)⟩,
        rfl, ?_, ?_⟩
    · show (2000 : ℚ) - 2000 * ((16 : ℚ)/100 / 16) = 1980
      norm_num
    · show (2000 : ℚ) + 2000 * ((16 : ℚ)/100 / 16) = 2020
      norm_num

/-- Witness for C5 at price 2000, iv 0.16 and a degenerate single-strike chain. -/
theorem estimator_range_formula_witness :
    (∃ d, get_prediction wAsset (some (2000, [⟨2000, 16/100⟩])) = some d ∧
      d.price = 2000 ∧ d.iv = 16/100 ∧
      d.low = 2000 - 2000 * (16/100) / 16 ∧ d.high = 2000 + 2000 * (16/100) / 16 ∧
      ((16 : ℚ)/100 = 0 → d.low = 2000 ∧ d.high = 2000)) ∧
    (∃ d, get_prediction wAsset (some (2000, [⟨2000, 16/100⟩])) = some d ∧
      d.low = 1980 ∧ d.high = 2020) :=
  estimator_range_formula wAsset 2000 (16/100) 2000 (by norm_num) (by norm_num)

/-- C6. The statistics count wins and resolved records over exactly the
records with a non-null result, and the win rate is wins/total_resolved when
at least one record is resolved and 0 when none is (no division by zero). -/
theorem stats_win_rate (df : List Record) :
    total_resolved df = df.countP (fun r => r.result.isSome) ∧
    wins df = df.countP (fun r => r.result == some Result.WIN) ∧
    (total_resolved df = 0 → win_rate df = 0) ∧
    (0 < total_resolved df →
      win_rate df = (wins df : ℚ) / (total_resolved df : ℚ)) := by
  refine ⟨?_, ?_, ?_, ?_⟩
  · rw [total_resolved, completed, List.countP_eq_length_filter]
  · rw [wins, completed, List.filter_filter, ← List.countP_eq_length_filter]
    apply List.countP_congr
    intro r _
    cases hr : r.result with
    | none => simp
    | some v => cases v <;> simp
  · intro h
    rw [win_rate, if_neg (by omega)]
  · intro h
    rw [win_rate, if_pos h]

/-- C7. Loading the persisted ledger never fails the run: a missing file, an
unreadable file, and a parse lacking the `symbol` column all yield the empty
ledger (fresh start), while a well-formed parse yields its records. -/
theorem load_ledger_total_fallback :
    load_ledger StoreState.missing = [] ∧
    load_ledger StoreState.unreadable = [] ∧
    (∀ rs, load_ledger (StoreState.parsed false rs) = []) ∧
    (∀ rs, load_ledger (StoreState.parsed true rs) = rs) :=
  ⟨rfl, rfl, fun _ => rfl, fun _ => rfl⟩

/-- C8. Per-asset failures are isolated. Verification: a pending record of a
configured asset whose own fetch succeeds and covers the record's date is
resolved no matter what the fetches of every other asset do (including
failing). Prediction: every asset whose prediction failed contributes a
failure notice to the report while every asset whose prediction succeeded is
still upserted into the ledger and reported. -/
theorem per_asset_failure_isolated
    (today : Nat) (fetch : String → Option History) (assets : List Asset)
    (df : List Record) (i : Nat) (r : Record) (b : Asset) (hist : History)
    (hh ll : ℚ) (preds : Asset → Option PredData) (df0 : List Record)
    (hdf : df[i]? = some r) (hp : pending_mask today r = true)
    (hb : b ∈ assets) (hsym : r.symbol = b.symbol)
    (hf : fetch b.verify_ticker = some hist)
    (hd : hist r.date = some (hh, ll)) :
    (∃ r2, (verify_history today fetch assets df).1[i]? = some r2 ∧
      r2.result.isSome = true) ∧
    (∀ a ∈ assets,
      (preds a = none →
        ReportLine.failure a.name ∈ (processAssets today preds assets df0).2) ∧
      (∀ d, preds a = some d →
        (∃ r3 ∈ (processAssets today preds assets df0).1,
          r3.date = today ∧ r3.symbol = d.symbol) ∧
        ReportLine.prediction a.name d.low d.high d.iv ∈
          (processAssets today preds assets df0).2)) :=
  ⟨verify_history_resolves today fetch assets df i r b hist hh ll hdf hp hb hsym hf hd,
   fun a ha => processAssets_isolation today preds assets df0 a ha⟩

/-- Witness for C8: the oil asset's fetch and prediction both fail while the
gold asset's pending record is still judged, its prediction still upserted
and reported, and the oil failure is reported. -/
theorem per_asset_failure_isolated_witness :
    (∃ r2, (verify_history 10 fetchIso [failAsset, wAsset] [wPending]).1[0]? = some r2 ∧
      r2.result.isSome = true) ∧
    ReportLine.failure failAsset.name ∈
      (processAssets 10 predsIso [failAsset, wAsset] []).2 ∧
    (∃ r3 ∈ (processAssets 10 predsIso [failAsset, wAsset] []).1,
      r3.date = 10 ∧ r3.symbol = wPred.symbol) ∧
    ReportLine.prediction wAsset.name wPred.low wPred.high wPred.iv ∈
      (processAssets 10 predsIso [failAsset, wAsset] []).2 := by
  have H := per_asset_failure_isolated 10 fetchIso [failAsset, wAsset] [wPending] 0
    wPending wAsset histGLD 120 80 predsIso []
    (by decide) (by decide) (by decide) (by decide) rfl (by decide)
  exact ⟨H.1, (H.2 failAsset (by decide)).1 (by decide),
    ((H.2 wAsset (by decide)).2 wPred (by decide)).1,
    ((H.2 wAsset (by decide)).2 wPred (by decide)).2⟩

end MarketBot
